import Mathlib

/-!
Verification of the core logic of a community/forum backend
(relevance scoring, browse/recommend ranking, topic-preference
bookkeeping, like counters, comment tree assembly), shallowly
embedded from the Python source under `src/routes`.

Machine integers are modelled as `Nat`/`Int`, Python floats arising
from `len(...) / len(...)` as `ℚ` (the counts involved are exact),
SQL rows as Lean lists of records, and `random.shuffle` as an
explicit permutation oracle passed to the embedded function.
-/

namespace Afterfrag

/-! ## Relevance scorer (src/routes/browse.py, calculate_relevance_score)

Python:
```
if not user_topics: return 0.0
matching_topics = set(community_tags) & set(user_topics)
return len(matching_topics) / len(user_topics)
```
`set(...)` is modelled by `List.toFinset`, `len(user_topics)` counts the
list (with multiplicity). -/

def calculate_relevance_score (community_tags user_topics : List String) : ℚ :=
  if user_topics.isEmpty then 0
  else ((community_tags.toFinset ∩ user_topics.toFinset).card : ℚ) / user_topics.length

theorem score_empty (T : List String) : calculate_relevance_score T [] = 0 := rfl

theorem score_nonneg (T S : List String) : 0 ≤ calculate_relevance_score T S := by
  unfold calculate_relevance_score
  split
  · exact le_refl 0
  · positivity

theorem score_le_one (T S : List String) (hS : S.Nodup) :
    calculate_relevance_score T S ≤ 1 := by
  unfold calculate_relevance_score
  split
  · exact zero_le_one
  · rename_i h
    rw [div_le_one]
    · have hcard : (T.toFinset ∩ S.toFinset).card ≤ S.toFinset.card :=
        Finset.card_le_card (Finset.inter_subset_right)
      have hlen : S.toFinset.card = S.length := by
        rw [List.toFinset_card_of_nodup hS]
      exact_mod_cast hcard.trans_eq hlen
    · have : S.length ≠ 0 := by
        simpa [List.isEmpty_iff_length_eq_zero] using h
      positivity

theorem score_eq_zero_iff (T S : List String) :
    calculate_relevance_score T S = 0 ↔ T.toFinset ∩ S.toFinset = ∅ := by
  unfold calculate_relevance_score
  split
  · rename_i h
    have : S = [] := by simpa [List.isEmpty_iff] using h
    subst this
    simp
  · rename_i h
    have hlen : (S.length : ℚ) ≠ 0 := by
      have : S.length ≠ 0 := by
        simpa [List.isEmpty_iff_length_eq_zero] using h
      exact_mod_cast this
    rw [div_eq_zero_iff]
    constructor
    · rintro (hc | hc)
      · have : (T.toFinset ∩ S.toFinset).card = 0 := by exact_mod_cast hc
        simpa [Finset.card_eq_zero] using this
      · exact absurd hc hlen
    · intro hc
      left
      simp [hc]

theorem score_eq_one_iff (T S : List String) (hS : S.Nodup) (hne : S ≠ []) :
    calculate_relevance_score T S = 1 ↔ S.toFinset ⊆ T.toFinset := by
  have hempty : S.isEmpty = false := by
    cases S with
    | nil => exact absurd rfl hne
    | cons a l => rfl
  have hlen : (S.length : ℚ) ≠ 0 := by
    have h0 : S.length ≠ 0 := by
      simpa [List.length_eq_zero] using hne
    exact_mod_cast h0
  unfold calculate_relevance_score
  rw [if_neg (by simp [hempty])]
  rw [div_eq_one_iff_eq hlen]
  have hcardS : S.toFinset.card = S.length := List.toFinset_card_of_nodup hS
  constructor
  · intro h
    have hcard : (T.toFinset ∩ S.toFinset).card = S.toFinset.card := by
      have h2 : (T.toFinset ∩ S.toFinset).card = S.length := by exact_mod_cast h
      rw [h2, hcardS]
    have heq : T.toFinset ∩ S.toFinset = S.toFinset :=
      Finset.eq_of_subset_of_card_le Finset.inter_subset_right (le_of_eq hcard.symm)
    intro x hx
    rw [← heq] at hx
    exact (Finset.mem_inter.mp hx).1
  · intro h
    have heq : T.toFinset ∩ S.toFinset = S.toFinset := Finset.inter_eq_right.mpr h
    rw [heq, hcardS]

/-- C2: the scorer returns 0 on an empty topic list, otherwise
`|set(T) ∩ set(S)| / |S|`, a value in `[0,1]`; it is 0 iff the tag/topic
intersection is empty, and — amended: for NONEMPTY `S` — it is 1 iff
`set(S) ⊆ set(T)`. -/
theorem relevance_score_spec (T S : List String) (hS : S.Nodup) :
    (S = [] → calculate_relevance_score T S = 0) ∧
    0 ≤ calculate_relevance_score T S ∧
    calculate_relevance_score T S ≤ 1 ∧
    (calculate_relevance_score T S = 0 ↔ T.toFinset ∩ S.toFinset = ∅) ∧
    (S ≠ [] →
      calculate_relevance_score T S =
        ((T.toFinset ∩ S.toFinset).card : ℚ) / S.length ∧
      (calculate_relevance_score T S = 1 ↔ S.toFinset ⊆ T.toFinset)) := by
  refine ⟨fun h => by subst h; rfl, score_nonneg T S, score_le_one T S hS,
    score_eq_zero_iff T S, fun hne => ⟨?_, score_eq_one_iff T S hS hne⟩⟩
  unfold calculate_relevance_score
  rw [if_neg]
  simp only [List.isEmpty_iff]
  exact hne

/-- Witness for `relevance_score_spec`: the spec's own scenario, community
tags `["Gaming","Music"]` against user topics
`["Gaming","Sports","Art & Design"]`, score `1/3`. -/
theorem relevance_score_spec_witness :
    (0 ≤ calculate_relevance_score ["Gaming", "Music"]
        ["Gaming", "Sports", "Art & Design"] ∧
      calculate_relevance_score ["Gaming", "Music"]
        ["Gaming", "Sports", "Art & Design"] ≤ 1) ∧
    (calculate_relevance_score ["Gaming", "Music"]
        ["Gaming", "Sports", "Art & Design"] = 1 ↔
      (["Gaming", "Sports", "Art & Design"] : List String).toFinset ⊆
        (["Gaming", "Music"] : List String).toFinset) :=
  ⟨⟨(relevance_score_spec ["Gaming", "Music"] ["Gaming", "Sports", "Art & Design"]
        (by decide)).2.1,
    (relevance_score_spec ["Gaming", "Music"] ["Gaming", "Sports", "Art & Design"]
        (by decide)).2.2.1⟩,
    ((relevance_score_spec ["Gaming", "Music"] ["Gaming", "Sports", "Art & Design"]
        (by decide)).2.2.2.2 (by decide)).2⟩

/-- C2 counterexample: as stated, `score(T,S) = 1.0 ↔ set(S) ⊆ set(T)` fails
for the empty (duplicate-free) topic list `S = []`: the inclusion holds
vacuously but the score is 0, not 1. -/
theorem relevance_score_one_iff_fails_on_empty :
    (([] : List String)).Nodup ∧
    (([] : List String).toFinset ⊆ (["Gaming"] : List String).toFinset) ∧
    calculate_relevance_score ["Gaming"] [] ≠ 1 := by
  refine ⟨List.nodup_nil, by simp, ?_⟩
  rw [score_empty]
  norm_num

/-! ## Persistent state for communities, memberships and topic preferences

Rows of the `communities`, `community_members` and `user_topics` tables
(src/database_schemas.py); only the columns the verified logic reads.
`tags` is the decoded JSON array. Timestamps are abstract `Nat`s. -/

structure Community where
  id : Nat
  name : String
  tags : List String
  owner_id : Nat
  created_at : Nat
  updated_at : Nat
deriving DecidableEq, Repr

structure Membership where
  community_id : Nat
  user_id : Nat
  role : String
deriving DecidableEq, Repr

structure St where
  communities : List Community
  members : List Membership
  user_topics : List (Nat × String)
deriving DecidableEq, Repr

/-- `SELECT topic FROM user_topics WHERE user_id = ?`
(src/routes/communities.py, get_user_topics; same query in browse.py). -/
def get_user_topics (st : St) (u : Nat) : List String :=
  (st.user_topics.filter (fun p => decide (p.1 = u))).map Prod.snd

/-- `COUNT(*) >= 3` over the user's `user_topics` rows
(src/routes/browse.py and onboarding.py, has_completed_onboarding). -/
def has_completed_onboarding (st : St) (u : Nat) : Bool :=
  decide (3 ≤ (st.user_topics.filter (fun p => decide (p.1 = u))).length)

/-- `SELECT ... FROM communities WHERE id = ?` lookup. -/
def get_community_by_id (st : St) (cid : Nat) : Option Community :=
  st.communities.find? (fun c => decide (c.id = cid))

/-- `SELECT role FROM community_members WHERE community_id = ? AND user_id = ?`
(src/utils/route_helpers.py, get_user_community_role). -/
def get_user_community_role (st : St) (cid u : Nat) : Option String :=
  (st.members.find? (fun m => decide (m.community_id = cid ∧ m.user_id = u))).map
    Membership.role

/-- `SELECT COUNT(*) FROM community_members WHERE community_id = ?`. -/
def member_count (st : St) (cid : Nat) : Nat :=
  (st.members.filter (fun m => decide (m.community_id = cid))).length

/-- `INSERT OR IGNORE INTO user_topics (user_id, topic)` for each topic
(src/routes/communities.py, add_topics_to_user). -/
def add_topics_to_user (st : St) (u : Nat) (topics : List String) : St :=
  { st with user_topics :=
      (topics.foldl (fun acc t => if (u, t) ∈ acc then acc else acc ++ [(u, t)])
        st.user_topics) }

/-- Union of the tag sets of all communities the user is a member of
(src/routes/communities.py, remove_topics_from_user, first query). -/
def all_community_topics (st : St) (u : Nat) : List String :=
  ((st.communities.filter (fun c =>
      decide (∃ m ∈ st.members, m.community_id = c.id ∧ m.user_id = u))).map
    Community.tags).flatten

/-- `DELETE FROM user_topics WHERE user_id = ? AND topic = ?` for each
candidate topic not in any joined community's tag set
(src/routes/communities.py, remove_topics_from_user). -/
def remove_topics_from_user (st : St) (u : Nat) (topics : List String) : St :=
  let used := all_community_topics st u
  { st with user_topics :=
      st.user_topics.filter (fun p =>
        decide (¬(p.1 = u ∧ p.2 ∈ topics ∧ p.2 ∉ used))) }

/-- POST /communities/{id}/join (src/routes/communities.py, join_community):
insert a `member` row, add the community's tags to the user's preferences,
then build the response message from the topics the user "didn't have
before" — read AFTER the insertion. Returns the new state and the message. -/
def join_community (st : St) (u cid : Nat) : Except String (St × String) :=
  match get_community_by_id st cid with
  | none => .error "Community not found"
  | some c =>
    match get_user_community_role st cid u with
    | some _ => .error "Already a member of this community"
    | none =>
      let st1 : St := { st with members := st.members ++ [⟨cid, u, "member"⟩] }
      let st2 := add_topics_to_user st1 u c.tags
      let user_existing_topics := get_user_topics st2 u
      let newly_added_topics :=
        c.tags.filter (fun t => decide (t ∉ user_existing_topics))
      let response_message :=
        if newly_added_topics.isEmpty then "Successfully joined community"
        else "Successfully joined community and added topics: " ++
          String.intercalate ", " newly_added_topics
      .ok (st2, response_message)

/-- POST /communities/{id}/leave (src/routes/communities.py,
leave_community): delete the membership row, then remove the community's
tags from the user's preferences when unused. -/
def leave_community (st : St) (u cid : Nat) : Except String St :=
  match get_community_by_id st cid with
  | none => .error "Community not found"
  | some c =>
    match get_user_community_role st cid u with
    | none => .error "Not a member of this community"
    | some role =>
      if role = "owner" then
        .error "Owner cannot leave community. Transfer ownership or delete community."
      else
        let st1 : St := { st with members :=
          (st.members.filter (fun m =>
            decide (¬(m.community_id = cid ∧ m.user_id = u)))) }
        .ok (remove_topics_from_user st1 u c.tags)

/-- DELETE /communities/{id}/members/{user_id} (src/routes/communities.py,
remove_member): role checks, delete the target's membership row, then
remove the community's tags from the target's preferences when unused. -/
def remove_member (st : St) (cid target actor : Nat) : Except String St :=
  match get_community_by_id st cid with
  | none => .error "Community not found"
  | some c =>
    if ¬(get_user_community_role st cid actor = some "owner" ∨
        get_user_community_role st cid actor = some "moderator") then
      .error "Only owners and moderators can remove members"
    else if actor = target then
      .error "Cannot remove yourself"
    else
      match get_user_community_role st cid target with
      | none => .error "User is not a member of this community"
      | some target_role =>
        if target_role = "owner" then
          .error "Cannot remove community owner"
        else if get_user_community_role st cid actor = some "moderator" ∧
            target_role = "moderator" then
          .error "Moderators can only remove regular members"
        else
          let st1 : St := { st with members :=
            (st.members.filter (fun m =>
              decide (¬(m.community_id = cid ∧ m.user_id = target)))) }
          .ok (remove_topics_from_user st1 target c.tags)

/-! ## Onboarding (src/routes/onboarding.py, src/schemas/onboarding.py) -/

/-- The fixed controlled vocabulary AVAILABLE_TOPICS. -/
def AVAILABLE_TOPICS : List String :=
  ["Science", "Technology", "Gaming", "Movies & TV Shows", "Music", "Sports",
   "Health & Fitness", "Food & Cooking", "Travel", "Fashion", "Art & Design",
   "Photography", "Books & Literature", "History", "Politics",
   "Finance & Investing", "Education", "Nature & Environment",
   "Space & Astronomy", "DIY & Crafts", "Comedy", "Memes & Humor",
   "Anime & Manga", "Cars & Motorcycles", "Relationships & Dating",
   "Mental Health", "Meditation & Mindfulness", "Business & Entrepreneurship",
   "Science Fiction & Fantasy", "True Crime", "Parenting", "Gardening",
   "Fitness Challenges", "Coding & Programming", "Pets & Animals",
   "Photography Tips", "Gaming Strategies", "Streaming & Podcasts",
   "Startups & Tech News", "Productivity Hacks",
   "Environment & Climate Change", "Art Tutorials", "Social Justice",
   "Home Improvement", "Career Advice", "Makeup & Beauty",
   "Language Learning", "Philosophy", "Festivals & Events",
   "Motivational Stories"]

/-- OnboardingRequest validation: 3–50 topics, all from the controlled
vocabulary, no duplicates (pydantic validator in src/schemas/onboarding.py). -/
def valid_onboarding_request (topics : List String) : Bool :=
  decide (3 ≤ topics.length) && decide (topics.length ≤ 50) &&
  topics.all (fun t => decide (t ∈ AVAILABLE_TOPICS)) && decide topics.Nodup

/-- POST /onboarding/complete: refuse if onboarding already completed,
otherwise clear all of the user's `user_topics` rows and insert the
submitted set (src/routes/onboarding.py, complete_onboarding). -/
def complete_onboarding (st : St) (u : Nat) (topics : List String) :
    Except String St :=
  if ¬ valid_onboarding_request topics then .error "Invalid topics"
  else if has_completed_onboarding st u then
    .error "Onboarding already completed"
  else
    .ok { st with user_topics :=
      (st.user_topics.filter (fun p => decide (p.1 ≠ u)) ++
        topics.map (fun t => (u, t))) }

/-- PUT /onboarding/update-topics: require completed onboarding, then clear
all of the user's `user_topics` rows and insert the submitted set
(src/routes/onboarding.py, update_topics). -/
def update_topics (st : St) (u : Nat) (topics : List String) :
    Except String St :=
  if ¬ valid_onboarding_request topics then .error "Invalid topics"
  else if ¬ has_completed_onboarding st u then
    .error "Must complete onboarding first"
  else
    .ok { st with user_topics :=
      (st.user_topics.filter (fun p => decide (p.1 ≠ u)) ++
        topics.map (fun t => (u, t))) }

/-! ## Community ranking engine (src/routes/browse.py)

One entry of `communities_with_scores`: the community row, its computed
member count and its relevance score. `random.shuffle` is modelled as an
explicit oracle `shuffle`; theorems assume only that it permutes its
input. -/

structure BrowseEntry where
  community : Community
  member_count : Nat
  relevance_score : ℚ
deriving DecidableEq

/-- The scored-and-filtered list: every community row, scored against the
user's topics, kept iff its score is strictly positive
(src/routes/browse.py lines 101–122). -/
def browse_entries (st : St) (topics : List String) : List BrowseEntry :=
  st.communities.filterMap (fun c =>
    let s := calculate_relevance_score c.tags topics
    if 0 < s then some ⟨c, member_count st c.id, s⟩ else none)

/-- Comparator for `list.sort(key=(score, member_count, created_at),
reverse=True)`: descending lexicographic. -/
def browse_key_le (a b : BrowseEntry) : Bool :=
  decide (b.relevance_score < a.relevance_score ∨
    (a.relevance_score = b.relevance_score ∧
      (b.member_count < a.member_count ∨
        (a.member_count = b.member_count ∧
          b.community.created_at ≤ a.community.created_at))))

/-- Comparator for the trending fallback query
`ORDER BY member_count DESC, c.updated_at DESC`. -/
def fallback_key_le (a b : BrowseEntry) : Bool :=
  decide (b.member_count < a.member_count ∨
    (a.member_count = b.member_count ∧
      b.community.updated_at ≤ a.community.updated_at))

/-- The fallback/trending list: every community with member count and
relevance score 0.0, ordered by `(member_count DESC, updated_at DESC)`. -/
def fallback_entries (st : St) : List BrowseEntry :=
  (st.communities.map (fun c => ⟨c, member_count st c.id, 0⟩)).mergeSort
    fallback_key_le

/-- GET /browse/communities (src/routes/browse.py, browse_communities):
onboarding precondition, score and filter, then either the storage-layer
paginated trending fallback (no shuffle) or sort + shuffle + in-memory
`[skip : skip+limit]` slice. -/
def browse_communities (st : St) (u : Nat)
    (shuffle : List BrowseEntry → List BrowseEntry) (skip limit : Nat) :
    Except String (List BrowseEntry) :=
  if ¬ has_completed_onboarding st u then
    .error "You must complete onboarding first. Please select at least 3 topics of interest."
  else
    let user_topics := get_user_topics st u
    let communities_with_scores := browse_entries st user_topics
    if communities_with_scores.isEmpty then
      .ok (((fallback_entries st).drop skip).take limit)
    else
      .ok (((shuffle (communities_with_scores.mergeSort browse_key_le)).drop
        skip).take limit)

/-- Comparator for the recommended variant's
`sort(key=relevance_score, reverse=True)`. -/
def rec_key_le (a b : BrowseEntry) : Bool :=
  decide (b.relevance_score ≤ a.relevance_score)

/-- GET /browse/communities/recommended (src/routes/browse.py,
get_recommended_communities): same two modes, capped at `limit`, fallback
has no OFFSET. -/
def get_recommended_communities (st : St) (u : Nat)
    (shuffle : List BrowseEntry → List BrowseEntry) (limit : Nat) :
    Except String (List BrowseEntry) :=
  if ¬ has_completed_onboarding st u then
    .error "You must complete onboarding first. Please select at least 3 topics of interest."
  else
    let user_topics := get_user_topics st u
    let communities_with_scores := browse_entries st user_topics
    if communities_with_scores.isEmpty then
      .ok ((fallback_entries st).take limit)
    else
      .ok ((shuffle (communities_with_scores.mergeSort rec_key_le)).take limit)

/-! ## Likes and denormalized counters

The like/unlike logic is textually identical for posts
(src/routes/posts.py, like_post / unlike_post) and comments
(src/routes/comments.py, like_comment / unlike_comment); it is embedded
once for one content item: its like rows `(user_id, value)` and its
denormalized `like_count` column. -/

structure LikeState where
  likes : List (Nat × Int)
  like_count : Int
deriving DecidableEq, Repr

/-- POST {content}/like: reject values outside {1, -1} (HTTP 400 before
any mutation, modelled as the unchanged state); if the user already has a
row, UPDATE it and add `new - old` to the counter; otherwise INSERT the
row and add `value` to the counter. -/
def like_content (st : LikeState) (u : Nat) (v : Int) : LikeState :=
  if v = 1 ∨ v = -1 then
    match st.likes.find? (fun p => decide (p.1 = u)) with
    | some p =>
      { likes := st.likes.map (fun q => if q.1 = u then (q.1, v) else q),
        like_count := st.like_count + (v - p.2) }
    | none =>
      { likes := st.likes ++ [(u, v)], like_count := st.like_count + v }
  else st

/-- DELETE {content}/like: if the user has a row, DELETE it and subtract
its value from the counter; otherwise report "No like/dislike to remove"
and change nothing. -/
def unlike_content (st : LikeState) (u : Nat) : LikeState :=
  match st.likes.find? (fun p => decide (p.1 = u)) with
  | some p =>
    { likes := st.likes.filter (fun q => decide (q.1 ≠ u)),
      like_count := st.like_count - p.2 }
  | none => st

inductive LikeOp where
  | like (u : Nat) (v : Int)
  | unlike (u : Nat)
deriving DecidableEq, Repr

def apply_like_op (st : LikeState) : LikeOp → LikeState
  | .like u v => like_content st u v
  | .unlike u => unlike_content st u

def run_like_ops (st : LikeState) (ops : List LikeOp) : LikeState :=
  ops.foldl apply_like_op st

/-- The strict invariant of the data model: at most one like row per user,
all values in {+1, -1}, and the denormalized counter equal to the sum of
the row values. -/
def LikeConsistent (st : LikeState) : Prop :=
  (st.likes.map Prod.fst).Nodup ∧
  (∀ p ∈ st.likes, p.2 = 1 ∨ p.2 = -1) ∧
  st.like_count = (st.likes.map Prod.snd).sum

/-! ## Comment tree builder (src/routes/comments.py, get_comment_tree)

One row of the post's `comments` table; the query orders by
`created_at ASC`, so the input list is taken in that order. Python's
`if comment.parent_id and comment.parent_id in comments` treats both a
NULL and a 0 parent id as falsy. -/

structure CommentRec where
  id : Nat
  parent_id : Option Nat
  created_at : Nat
deriving DecidableEq, Repr

/-- The condition under which get_comment_tree attaches a comment to a
parent rather than making it a root: a truthy `parent_id` that is a key of
the id-to-comment mapping of this post. -/
def attaches (l : List CommentRec) (c : CommentRec) : Bool :=
  match c.parent_id with
  | none => false
  | some p => decide (p ≠ 0) && l.any (fun d => decide (d.id = p))

/-- The roots (`tree`) list built by get_comment_tree: the comments, in
input (creation) order, that do not attach to a present parent. -/
def tree_roots (l : List CommentRec) : List CommentRec :=
  l.filter (fun c => ! attaches l c)

/-- The `children` list the builder leaves on the comment with id `pid`:
the comments, in input order, that attach to that id. -/
def tree_children (l : List CommentRec) (pid : Nat) : List CommentRec :=
  l.filter (fun c => attaches l c && decide (c.parent_id = some pid))

/-- The raw parent reference: `c`'s `parent_id` names `d`, both rows of
this post. Acyclicity of the input is stated over this relation. -/
def ParentRef (l : List CommentRec) (c d : CommentRec) : Prop :=
  c ∈ l ∧ d ∈ l ∧ c.parent_id = some d.id

/-- The parent/child edge of the constructed tree: `c` ended up in the
children list of `d`. -/
def TreeEdge (l : List CommentRec) (c d : CommentRec) : Prop :=
  d ∈ l ∧ c ∈ tree_children l d.id

/-! ## Posts and home recommendations
(src/routes/posts.py create_post, src/routes/profile.py
get_home_recommendations)

A `posts` row. `tags` is the nullable `tags` column (a decoded JSON array
when present, `none` for SQL NULL). Post tags chosen at creation go into
the separate `post_post_tags` join table, NOT into this column. -/

structure Post where
  id : Nat
  community_id : Nat
  user_id : Nat
  title : String
  content : String
  tags : Option (List String)
  like_count : Int
  created_at : Nat
deriving DecidableEq, Repr

structure PostSt where
  members : List Membership
  community_post_tags : List (Nat × Nat)
  posts : List Post
  post_post_tags : List (Nat × Nat)
  user_topics : List (Nat × String)
deriving DecidableEq, Repr

/-- POST /posts/ (src/routes/posts.py, create_post): membership check,
tag-id validity check against `community_post_tags`, then
`INSERT INTO posts (community_id, user_id, title, content)` — the `tags`
column is not named by the INSERT, so the new row's `tags` is NULL — and
one `post_post_tags` row per chosen tag id. `new_post_id`/`now` stand for
the autoincrement id and CURRENT_TIMESTAMP. -/
def create_post (st : PostSt) (community_id user_id : Nat)
    (title content : String) (tag_ids : List Nat) (new_post_id now : Nat) :
    Except String PostSt :=
  if ¬ ∃ m ∈ st.members, m.community_id = community_id ∧ m.user_id = user_id then
    .error "You must join the community to post."
  else if tag_ids ≠ [] ∧
      ¬ ∀ tid ∈ tag_ids, ∃ ct ∈ st.community_post_tags,
        ct.2 = community_id ∧ ct.1 = tid then
    .error "Invalid post tag(s) for this community."
  else
    .ok { st with
      posts := st.posts ++
        [{ id := new_post_id, community_id := community_id,
           user_id := user_id, title := title, content := content,
           tags := none, like_count := 0, created_at := now }],
      post_post_tags := st.post_post_tags ++
        tag_ids.map (fun tid => (new_post_id, tid)) }

/-- The posts that qualify for the non-fallback branch of
get_home_recommendations: authored by another user, with a truthy `tags`
column whose set intersects the user's (nonempty) topic set. -/
def recommended_candidates (st : PostSt) (user_id : Nat) : List Post :=
  let user_topics :=
    ((st.user_topics.filter (fun p => decide (p.1 = user_id))).map
      Prod.snd).toFinset
  (st.posts.filter (fun p => decide (p.user_id ≠ user_id))).filter (fun p =>
    match p.tags with
    | none => false
    | some tags => decide (user_topics ≠ ∅ ∧ user_topics ∩ tags.toFinset ≠ ∅))

/-- Comparator for the posts fallback query
`ORDER BY like_count DESC, created_at DESC`. -/
def posts_fallback_le (a b : Post) : Bool :=
  decide (b.like_count < a.like_count ∨
    (a.like_count = b.like_count ∧ b.created_at ≤ a.created_at))

/-- GET /profile/{user_id}/home/recommendations (src/routes/profile.py,
get_home_recommendations): shuffle the qualifying posts and return up to
20; when none qualify, return the first 20 posts by other users ordered by
`(like_count DESC, created_at DESC)`, no shuffle. -/
def get_home_recommendations (st : PostSt) (user_id : Nat)
    (shuffle : List Post → List Post) : List Post :=
  let recommended := shuffle (recommended_candidates st user_id)
  if ¬ recommended.isEmpty then recommended.take 20
  else ((st.posts.filter (fun p => decide (p.user_id ≠ user_id))).mergeSort
    posts_fallback_le).take 20

/-! ## Topic bookkeeper lemmas -/

theorem mem_remove_topics {st : St} {u : Nat} {topics : List String}
    {v : Nat} {t : String} :
    (v, t) ∈ (remove_topics_from_user st u topics).user_topics ↔
      (v, t) ∈ st.user_topics ∧
        ¬(v = u ∧ t ∈ topics ∧ t ∉ all_community_topics st u) := by
  unfold remove_topics_from_user
  simp only [List.mem_filter, decide_eq_true_eq]

theorem remove_topics_members (st : St) (u : Nat) (topics : List String) :
    (remove_topics_from_user st u topics).members = st.members := rfl

theorem remove_topics_communities (st : St) (u : Nat) (topics : List String) :
    (remove_topics_from_user st u topics).communities = st.communities := rfl

/-- The insertion loop of add_topics_to_user only ever appends rows. -/
theorem mem_insert_topics_foldl (u : Nat) (l : List String)
    (acc : List (Nat × String)) (q : Nat × String) (hq : q ∈ acc) :
    q ∈ l.foldl
      (fun acc t => if (u, t) ∈ acc then acc else acc ++ [(u, t)]) acc := by
  induction l generalizing acc with
  | nil => exact hq
  | cons a l ih =>
    simp only [List.foldl_cons]
    apply ih
    split
    · exact hq
    · exact List.mem_append_left _ hq

/-- Every processed topic ends up present after the insertion loop. -/
theorem insert_topics_foldl_mem_self (u : Nat) (l : List String)
    (acc : List (Nat × String)) (t : String) (ht : t ∈ l) :
    (u, t) ∈ l.foldl
      (fun acc t => if (u, t) ∈ acc then acc else acc ++ [(u, t)]) acc := by
  induction l generalizing acc with
  | nil => cases ht
  | cons a l ih =>
    simp only [List.foldl_cons]
    rcases List.mem_cons.mp ht with h | h
    · subst h
      apply mem_insert_topics_foldl
      split
      · assumption
      · exact List.mem_append_right _ (by simp)
    · exact ih _ h

theorem mem_add_topics {st : St} {u : Nat} {topics : List String}
    {q : Nat × String} (hq : q ∈ st.user_topics) :
    q ∈ (add_topics_to_user st u topics).user_topics :=
  mem_insert_topics_foldl u topics st.user_topics q hq

theorem add_topics_mem_self {st : St} {u : Nat} {topics : List String}
    {t : String} (ht : t ∈ topics) :
    (u, t) ∈ (add_topics_to_user st u topics).user_topics :=
  insert_topics_foldl_mem_self u topics st.user_topics t ht

theorem mem_get_user_topics {st : St} {u : Nat} {t : String}
    (h : (u, t) ∈ st.user_topics) : t ∈ get_user_topics st u := by
  unfold get_user_topics
  exact List.mem_map.mpr ⟨(u, t), List.mem_filter.mpr ⟨h, by simp⟩, rfl⟩

/-- C4: removeTopicsIfUnused never deletes a topic listed by a community
the user currently belongs to, deletes a candidate topic exactly when no
joined community lists it, touches no other row, and never changes
memberships or communities. -/
theorem remove_topics_spec (st : St) (u : Nat) (topics : List String) :
    ((remove_topics_from_user st u topics).members = st.members ∧
      (remove_topics_from_user st u topics).communities = st.communities) ∧
    (∀ t, t ∈ all_community_topics st u →
      ((u, t) ∈ (remove_topics_from_user st u topics).user_topics ↔
        (u, t) ∈ st.user_topics)) ∧
    (∀ t ∈ topics, t ∉ all_community_topics st u →
      (u, t) ∉ (remove_topics_from_user st u topics).user_topics) ∧
    (∀ t, t ∉ topics →
      ((u, t) ∈ (remove_topics_from_user st u topics).user_topics ↔
        (u, t) ∈ st.user_topics)) ∧
    (∀ v t, v ≠ u →
      ((v, t) ∈ (remove_topics_from_user st u topics).user_topics ↔
        (v, t) ∈ st.user_topics)) := by
  refine ⟨⟨rfl, rfl⟩, ?_, ?_, ?_, ?_⟩
  · intro t ht
    rw [mem_remove_topics]
    constructor
    · exact fun h => h.1
    · intro h
      exact ⟨h, fun hc => hc.2.2 ht⟩
  · intro t ht hnt
    rw [mem_remove_topics]
    rintro ⟨-, hc⟩
    exact hc ⟨rfl, ht, hnt⟩
  · intro t ht
    rw [mem_remove_topics]
    constructor
    · exact fun h => h.1
    · intro h
      exact ⟨h, fun hc => ht hc.2.1⟩
  · intro v t hv
    rw [mem_remove_topics]
    constructor
    · exact fun h => h.1
    · intro h
      exact ⟨h, fun hc => hv hc.1⟩

/-- Witness for `remove_topics_spec`: the spec's own scenario — a user who
belongs only to a community tagged `["Gaming","Music"]` leaves it;
"Music" is removable, "Gaming" is kept while a second Gaming community
remains joined. -/
theorem remove_topics_spec_witness :
    ("Gaming" ∈ all_community_topics
        ⟨[⟨7, "g", ["Gaming"], 2, 0, 0⟩], [⟨7, 1, "member"⟩],
          [(1, "Gaming"), (1, "Music")]⟩ 1 ∧
      ((1, "Gaming") ∈ (remove_topics_from_user
          ⟨[⟨7, "g", ["Gaming"], 2, 0, 0⟩], [⟨7, 1, "member"⟩],
            [(1, "Gaming"), (1, "Music")]⟩ 1 ["Gaming", "Music"]).user_topics ↔
        (1, "Gaming") ∈ ([(1, "Gaming"), (1, "Music")] : List (Nat × String)))) ∧
    ("Music" ∈ ["Gaming", "Music"] ∧
      (1, "Music") ∉ (remove_topics_from_user
          ⟨[⟨7, "g", ["Gaming"], 2, 0, 0⟩], [⟨7, 1, "member"⟩],
            [(1, "Gaming"), (1, "Music")]⟩ 1 ["Gaming", "Music"]).user_topics) :=
  ⟨⟨by decide, (remove_topics_spec
      ⟨[⟨7, "g", ["Gaming"], 2, 0, 0⟩], [⟨7, 1, "member"⟩],
        [(1, "Gaming"), (1, "Music")]⟩ 1 ["Gaming", "Music"]).2.1 "Gaming"
      (by decide)⟩,
    ⟨by decide, (remove_topics_spec
      ⟨[⟨7, "g", ["Gaming"], 2, 0, 0⟩], [⟨7, 1, "member"⟩],
        [(1, "Gaming"), (1, "Music")]⟩ 1 ["Gaming", "Music"]).2.2.1 "Music"
      (by decide) (by decide)⟩⟩

/-! ## Membership operation inversions -/

theorem join_community_ok {st : St} {u cid : Nat} {st2 : St} {msg : String}
    (h : join_community st u cid = .ok (st2, msg)) :
    ∃ c, get_community_by_id st cid = some c ∧
      get_user_community_role st cid u = none ∧
      st2 = add_topics_to_user
        { st with members := st.members ++ [⟨cid, u, "member"⟩] } u c.tags ∧
      msg = (if (c.tags.filter (fun t =>
          decide (t ∉ get_user_topics st2 u))).isEmpty
        then "Successfully joined community"
        else "Successfully joined community and added topics: " ++
          String.intercalate ", " (c.tags.filter (fun t =>
            decide (t ∉ get_user_topics st2 u)))) := by
  unfold join_community at h
  cases hc : get_community_by_id st cid with
  | none => rw [hc] at h; simp at h
  | some c =>
    rw [hc] at h
    cases hr : get_user_community_role st cid u with
    | some r => rw [hr] at h; simp at h
    | none =>
      rw [hr] at h
      simp only [Except.ok.injEq, Prod.mk.injEq] at h
      exact ⟨c, rfl, rfl, h.1.symm, by rw [← h.2, h.1]⟩

theorem leave_community_ok {st : St} {u cid : Nat} {st2 : St}
    (h : leave_community st u cid = .ok st2) :
    ∃ c, get_community_by_id st cid = some c ∧
      st2 = remove_topics_from_user
        { st with members := (st.members.filter (fun m =>
            decide (¬(m.community_id = cid ∧ m.user_id = u)))) } u c.tags := by
  unfold leave_community at h
  cases hc : get_community_by_id st cid with
  | none => rw [hc] at h; simp at h
  | some c =>
    simp only [hc] at h
    cases hr : get_user_community_role st cid u with
    | none => rw [hr] at h; simp at h
    | some role =>
      simp only [hr] at h
      by_cases hrole : role = "owner"
      · rw [if_pos hrole] at h; simp at h
      · rw [if_neg hrole] at h
        simp only [Except.ok.injEq] at h
        exact ⟨c, rfl, h.symm⟩

theorem remove_member_ok {st : St} {cid target actor : Nat} {st2 : St}
    (h : remove_member st cid target actor = .ok st2) :
    ∃ c, get_community_by_id st cid = some c ∧
      st2 = remove_topics_from_user
        { st with members := (st.members.filter (fun m =>
            decide (¬(m.community_id = cid ∧ m.user_id = target)))) }
        target c.tags := by
  unfold remove_member at h
  cases hc : get_community_by_id st cid with
  | none => rw [hc] at h; simp at h
  | some c =>
    simp only [hc] at h
    by_cases h1 : ¬(get_user_community_role st cid actor = some "owner" ∨
        get_user_community_role st cid actor = some "moderator")
    · rw [if_pos h1] at h; simp at h
    · rw [if_neg h1] at h
      by_cases h2 : actor = target
      · rw [if_pos h2] at h; simp at h
      · rw [if_neg h2] at h
        cases hr : get_user_community_role st cid target with
        | none => rw [hr] at h; simp at h
        | some target_role =>
          simp only [hr] at h
          by_cases h3 : target_role = "owner"
          · rw [if_pos h3] at h; simp at h
          · rw [if_neg h3] at h
            by_cases h4 : get_user_community_role st cid actor = some "moderator" ∧
                target_role = "moderator"
            · rw [if_pos h4] at h; simp at h
            · rw [if_neg h4] at h
              simp only [Except.ok.injEq] at h
              exact ⟨c, rfl, h.symm⟩

/-! ## C1: the topic-preference/​membership invariant -/

/-- The state after a community (id 7, tags ["Gaming"], owned by user 2)
exists and user 1 has not onboarded yet. -/
def stA : St :=
  ⟨[⟨7, "gamers", ["Gaming"], 2, 0, 0⟩], [⟨7, 2, "owner"⟩], []⟩

/-- stA after user 1 completes onboarding with Gaming, Music, Sports. -/
def stB : St :=
  ⟨[⟨7, "gamers", ["Gaming"], 2, 0, 0⟩], [⟨7, 2, "owner"⟩],
    [(1, "Gaming"), (1, "Music"), (1, "Sports")]⟩

/-- stB after user 1 joins community 7. -/
def stC : St :=
  ⟨[⟨7, "gamers", ["Gaming"], 2, 0, 0⟩], [⟨7, 2, "owner"⟩, ⟨7, 1, "member"⟩],
    [(1, "Gaming"), (1, "Music"), (1, "Sports")]⟩

/-- stC after user 1 updates their topics to Music, Sports, Travel. -/
def stD : St :=
  ⟨[⟨7, "gamers", ["Gaming"], 2, 0, 0⟩], [⟨7, 2, "owner"⟩, ⟨7, 1, "member"⟩],
    [(1, "Music"), (1, "Sports"), (1, "Travel")]⟩

/-- C1 counterexample: in a reachable state (onboarding, then join), the
onboarding topic update deletes the preference (1, "Gaming") although the
user still belongs to community 7 whose tags include "Gaming" — the
full-replace update_topics does NOT preserve the invariant. -/
theorem update_topics_invariant_counterexample :
    complete_onboarding stA 1 ["Gaming", "Music", "Sports"] = .ok stB ∧
    join_community stB 1 7 = .ok (stC, "Successfully joined community") ∧
    update_topics stC 1 ["Music", "Sports", "Travel"] = .ok stD ∧
    (1, "Gaming") ∈ stC.user_topics ∧
    "Gaming" ∈ all_community_topics stD 1 ∧
    (1, "Gaming") ∉ stD.user_topics := by
  refine ⟨rfl, rfl, rfl, by decide, by decide, by decide⟩

/-- C1 (amended): community join, community leave and member removal never
delete a preference (v, t) while v still belongs to a community whose tags
include t; the onboarding full-replace operations (complete_onboarding,
update_topics) do not preserve this (see the counterexample). -/
theorem membership_ops_preserve_backed_topics (st : St) (v : Nat) (t : String)
    (hv : (v, t) ∈ st.user_topics) :
    (∀ u cid st2 msg, join_community st u cid = .ok (st2, msg) →
      (v, t) ∈ st2.user_topics) ∧
    (∀ u cid st2, leave_community st u cid = .ok st2 →
      t ∈ all_community_topics st2 v → (v, t) ∈ st2.user_topics) ∧
    (∀ cid target actor st2, remove_member st cid target actor = .ok st2 →
      t ∈ all_community_topics st2 v → (v, t) ∈ st2.user_topics) := by
  refine ⟨?_, ?_, ?_⟩
  · intro u cid st2 msg h
    obtain ⟨c, -, -, hst2, -⟩ := join_community_ok h
    subst hst2
    exact mem_add_topics hv
  · intro u cid st2 h ht
    obtain ⟨c, -, hst2⟩ := leave_community_ok h
    subst hst2
    rw [mem_remove_topics]
    by_cases hvu : v = u
    · subst hvu
      exact ⟨hv, fun hc => hc.2.2 ht⟩
    · exact ⟨hv, fun hc => hvu hc.1⟩
  · intro cid target actor st2 h ht
    obtain ⟨c, -, hst2⟩ := remove_member_ok h
    subst hst2
    rw [mem_remove_topics]
    by_cases hvt : v = target
    · subst hvt
      exact ⟨hv, fun hc => hc.2.2 ht⟩
    · exact ⟨hv, fun hc => hvt hc.1⟩

/-- State for the C1 witness: user 1 belongs to communities 7 and 8, both
tagged "Gaming". -/
def stW : St :=
  ⟨[⟨7, "g", ["Gaming"], 2, 0, 0⟩, ⟨8, "h", ["Gaming"], 2, 0, 0⟩],
    [⟨7, 1, "member"⟩, ⟨8, 1, "member"⟩, ⟨7, 2, "owner"⟩, ⟨8, 2, "owner"⟩],
    [(1, "Gaming"), (1, "Music"), (1, "Sports")]⟩

/-- stW after user 1 leaves community 7: community 8 still lists
"Gaming", so no preference is deleted. -/
def stW2 : St :=
  ⟨[⟨7, "g", ["Gaming"], 2, 0, 0⟩, ⟨8, "h", ["Gaming"], 2, 0, 0⟩],
    [⟨8, 1, "member"⟩, ⟨7, 2, "owner"⟩, ⟨8, 2, "owner"⟩],
    [(1, "Gaming"), (1, "Music"), (1, "Sports")]⟩

/-- Witness for `membership_ops_preserve_backed_topics`: user 1 leaves
community 7 while community 8 also lists "Gaming"; the preference
survives. -/
theorem membership_ops_preserve_backed_topics_witness :
    (1, "Gaming") ∈ stW.user_topics ∧ (1, "Gaming") ∈ stW2.user_topics :=
  ⟨by decide,
    (membership_ops_preserve_backed_topics stW 1 "Gaming" (by decide)).2.1
      1 7 stW2 (by rfl) (by decide)⟩

/-- C10: join_community computes the "newly added" topics against the
preference set read AFTER the community's tags were inserted, so the list
is always empty and every successful join responds exactly
"Successfully joined community". -/
theorem join_community_message (st : St) (u cid : Nat) (st2 : St)
    (msg : String) (h : join_community st u cid = .ok (st2, msg)) :
    msg = "Successfully joined community" := by
  obtain ⟨c, -, -, hst2, hmsg⟩ := join_community_ok h
  have hnil : c.tags.filter (fun t => decide (t ∉ get_user_topics st2 u)) = [] := by
    rw [List.filter_eq_nil_iff]
    intro t ht
    simp only [decide_eq_true_eq, not_not]
    subst hst2
    exact mem_get_user_topics (add_topics_mem_self ht)
  rw [hnil] at hmsg
  simpa using hmsg

/-- Witness for `join_community_message`: a fresh member joining community
7 whose tag "Gaming" is genuinely new to them still gets the bare
message. -/
theorem join_community_message_witness :
    join_community ⟨[⟨7, "gamers", ["Gaming"], 2, 0, 0⟩], [⟨7, 2, "owner"⟩],
        [(1, "Music"), (1, "Sports"), (1, "Travel")]⟩ 1 7 =
      .ok (⟨[⟨7, "gamers", ["Gaming"], 2, 0, 0⟩],
        [⟨7, 2, "owner"⟩, ⟨7, 1, "member"⟩],
        [(1, "Music"), (1, "Sports"), (1, "Travel"), (1, "Gaming")]⟩,
        "Successfully joined community") ∧
    "Successfully joined community" = "Successfully joined community" :=
  ⟨by rfl,
    join_community_message
      ⟨[⟨7, "gamers", ["Gaming"], 2, 0, 0⟩], [⟨7, 2, "owner"⟩],
        [(1, "Music"), (1, "Sports"), (1, "Travel")]⟩ 1 7
      ⟨[⟨7, "gamers", ["Gaming"], 2, 0, 0⟩],
        [⟨7, 2, "owner"⟩, ⟨7, 1, "member"⟩],
        [(1, "Music"), (1, "Sports"), (1, "Travel"), (1, "Gaming")]⟩
      "Successfully joined community" (by rfl)⟩

/-- C9: a caller with fewer than 3 topic preferences gets the
onboarding-precondition error from both browse endpoints — never the
trending fallback — and the embedded functions mutate nothing. -/
theorem browse_requires_onboarding (st : St) (u : Nat)
    (shuffle shuffle2 : List BrowseEntry → List BrowseEntry)
    (skip limit limit2 : Nat)
    (h : (st.user_topics.filter (fun p => decide (p.1 = u))).length < 3) :
    browse_communities st u shuffle skip limit =
      .error "You must complete onboarding first. Please select at least 3 topics of interest." ∧
    get_recommended_communities st u shuffle2 limit2 =
      .error "You must complete onboarding first. Please select at least 3 topics of interest." := by
  have hb : has_completed_onboarding st u = false := by
    unfold has_completed_onboarding
    simpa using Nat.not_le.mpr h
  constructor
  · unfold browse_communities
    rw [hb]
    simp
  · unfold get_recommended_communities
    rw [hb]
    simp

/-- Witness for `browse_requires_onboarding`: a user with a single topic
preference is rejected by both endpoints. -/
theorem browse_requires_onboarding_witness :
    browse_communities ⟨[], [], [(1, "Gaming")]⟩ 1 id 0 10 =
      .error "You must complete onboarding first. Please select at least 3 topics of interest." ∧
    get_recommended_communities ⟨[], [], [(1, "Gaming")]⟩ 1 id 5 =
      .error "You must complete onboarding first. Please select at least 3 topics of interest." :=
  browse_requires_onboarding ⟨[], [], [(1, "Gaming")]⟩ 1 id id 0 10 5 (by decide)

theorem mem_browse_entries (st : St) (topics : List String) (e : BrowseEntry) :
    e ∈ browse_entries st topics ↔
      ∃ c ∈ st.communities, 0 < calculate_relevance_score c.tags topics ∧
        e = ⟨c, member_count st c.id, calculate_relevance_score c.tags topics⟩ := by
  simp only [browse_entries, List.mem_filterMap]
  constructor
  · rintro ⟨c, hc, hfc⟩
    by_cases hs : 0 < calculate_relevance_score c.tags topics
    · rw [if_pos hs] at hfc
      exact ⟨c, hc, hs, (Option.some.injEq _ _ ▸ hfc).symm⟩
    · rw [if_neg hs] at hfc
      cases hfc
  · rintro ⟨c, hc, hs, he⟩
    exact ⟨c, hc, by rw [if_pos hs, he]⟩

theorem browse_entries_eq_nil (st : St) (topics : List String) :
    browse_entries st topics = [] ↔
      ∀ c ∈ st.communities, ¬ 0 < calculate_relevance_score c.tags topics := by
  simp only [browse_entries, List.filterMap_eq_nil_iff]
  constructor
  · intro hf c hc hs
    have hfc := hf c hc
    rw [if_pos hs] at hfc
    cases hfc
  · intro hall c hc
    rw [if_neg (hall c hc)]

/-- C3: with onboarding complete, browse_communities returns the
`[skip : skip+limit]` slice of a permutation (sort, then shuffle) of
exactly the positively-scored communities — no zero-score community
appears — and falls back to the storage-paginated trending list, in
`(member_count DESC, updated_at DESC)` order with no shuffle, precisely
when no community scores above zero. -/
theorem browse_communities_spec (st : St) (u : Nat)
    (shuffle : List BrowseEntry → List BrowseEntry) (skip limit : Nat)
    (hshuffle : ∀ l, (shuffle l).Perm l)
    (hon : has_completed_onboarding st u = true) :
    (∀ e, e ∈ browse_entries st (get_user_topics st u) ↔
      ∃ c ∈ st.communities,
        0 < calculate_relevance_score c.tags (get_user_topics st u) ∧
        e = ⟨c, member_count st c.id,
          calculate_relevance_score c.tags (get_user_topics st u)⟩) ∧
    (browse_entries st (get_user_topics st u) = [] ↔
      ∀ c ∈ st.communities,
        ¬ 0 < calculate_relevance_score c.tags (get_user_topics st u)) ∧
    (browse_entries st (get_user_topics st u) = [] →
      browse_communities st u shuffle skip limit =
        .ok (((fallback_entries st).drop skip).take limit)) ∧
    (browse_entries st (get_user_topics st u) ≠ [] →
      ∃ p : List BrowseEntry,
        p.Perm (browse_entries st (get_user_topics st u)) ∧
        browse_communities st u shuffle skip limit =
          .ok ((p.drop skip).take limit) ∧
        ∀ e ∈ (p.drop skip).take limit, 0 < e.relevance_score) := by
  refine ⟨mem_browse_entries st (get_user_topics st u),
    browse_entries_eq_nil st (get_user_topics st u), ?_, ?_⟩
  · intro hnil
    unfold browse_communities
    simp only [hon]
    rw [if_neg (by simp)]
    rw [hnil]
    rfl
  · intro hne
    refine ⟨shuffle ((browse_entries st (get_user_topics st u)).mergeSort
      browse_key_le), (hshuffle _).trans (List.mergeSort_perm _ _), ?_, ?_⟩
    · unfold browse_communities
      simp only [hon]
      rw [if_neg (by simp)]
      rw [if_neg (by simpa [List.isEmpty_iff] using hne)]
    · intro e he
      have hmem : e ∈ browse_entries st (get_user_topics st u) :=
        (((hshuffle _).trans (List.mergeSort_perm _ _)).mem_iff).mp
          (List.mem_of_mem_drop (List.mem_of_mem_take he))
      obtain ⟨c, -, hs, hec⟩ := (mem_browse_entries _ _ _).mp hmem
      rw [hec]
      exact hs

/-- Witness for `browse_communities_spec`: one Gaming community, an
onboarded Gaming/Music/Sports user, identity shuffle. -/
theorem browse_communities_spec_witness :
    browse_entries (⟨[⟨7, "gamers", ["Gaming"], 2, 0, 0⟩], [⟨7, 2, "owner"⟩],
        [(1, "Gaming"), (1, "Music"), (1, "Sports")]⟩ : St)
      (get_user_topics ⟨[⟨7, "gamers", ["Gaming"], 2, 0, 0⟩],
        [⟨7, 2, "owner"⟩], [(1, "Gaming"), (1, "Music"), (1, "Sports")]⟩ 1) ≠
      [] ∧
    ∃ p : List BrowseEntry,
      p.Perm (browse_entries ⟨[⟨7, "gamers", ["Gaming"], 2, 0, 0⟩],
        [⟨7, 2, "owner"⟩], [(1, "Gaming"), (1, "Music"), (1, "Sports")]⟩
        (get_user_topics ⟨[⟨7, "gamers", ["Gaming"], 2, 0, 0⟩],
          [⟨7, 2, "owner"⟩], [(1, "Gaming"), (1, "Music"), (1, "Sports")]⟩ 1)) ∧
      browse_communities ⟨[⟨7, "gamers", ["Gaming"], 2, 0, 0⟩],
        [⟨7, 2, "owner"⟩], [(1, "Gaming"), (1, "Music"), (1, "Sports")]⟩ 1 id
        0 10 = .ok ((p.drop 0).take 10) ∧
      ∀ e ∈ (p.drop 0).take 10, 0 < e.relevance_score := by
  have hne : browse_entries (⟨[⟨7, "gamers", ["Gaming"], 2, 0, 0⟩],
      [⟨7, 2, "owner"⟩], [(1, "Gaming"), (1, "Music"), (1, "Sports")]⟩ : St)
      (get_user_topics ⟨[⟨7, "gamers", ["Gaming"], 2, 0, 0⟩],
        [⟨7, 2, "owner"⟩], [(1, "Gaming"), (1, "Music"), (1, "Sports")]⟩ 1) ≠
      [] := by
    intro hcon
    have := (browse_entries_eq_nil _ _).mp hcon ⟨7, "gamers", ["Gaming"], 2, 0, 0⟩
      (by decide)
    revert this
    norm_num [calculate_relevance_score, get_user_topics]
  exact ⟨hne, (browse_communities_spec
    ⟨[⟨7, "gamers", ["Gaming"], 2, 0, 0⟩], [⟨7, 2, "owner"⟩],
      [(1, "Gaming"), (1, "Music"), (1, "Sports")]⟩ 1 id 0 10
    (fun l => List.Perm.refl l) (by decide)).2.2.2 hne⟩

/-! ## Like counter lemmas -/

theorem keys_no_u_of_head {u : Nat} {q : Nat × Int} {rest : List (Nat × Int)}
    (hnd : ((q :: rest).map Prod.fst).Nodup) (hq : q.1 = u) :
    ∀ x ∈ rest, x.1 ≠ u := by
  intro x hx hxu
  have hmem : q.1 ∈ rest.map Prod.fst := by
    rw [hq, ← hxu]
    exact List.mem_map_of_mem Prod.fst hx
  exact (List.nodup_cons.mp (by simpa using hnd)).1 hmem

theorem sum_snd_map_update (u : Nat) (v : Int) :
    ∀ (l : List (Nat × Int)) (p0 : Nat × Int),
      (l.map Prod.fst).Nodup →
      l.find? (fun p => decide (p.1 = u)) = some p0 →
      ((l.map (fun q => if q.1 = u then (q.1, v) else q)).map Prod.snd).sum =
        (l.map Prod.snd).sum + (v - p0.2) := by
  intro l
  induction l with
  | nil => intro p0 _ hf; cases hf
  | cons q rest ih =>
    intro p0 hnd hf
    by_cases hq : q.1 = u
    · rw [List.find?_cons_of_pos _ (by simpa using hq)] at hf
      injection hf with hqp
      subst hqp
      have hrest := keys_no_u_of_head hnd hq
      have hmap : rest.map (fun q' => if q'.1 = u then (q'.1, v) else q') =
          rest.map id :=
        List.map_congr_left (fun x hx => if_neg (hrest x hx))
      rw [List.map_id] at hmap
      simp only [List.map_cons, if_pos hq, hmap, List.sum_cons]
      ring
    · rw [List.find?_cons_of_neg _ (by simpa using hq)] at hf
      have hnd' : (rest.map Prod.fst).Nodup :=
        (List.nodup_cons.mp (by simpa using hnd)).2
      have hrec := ih p0 hnd' hf
      simp only [List.map_cons, if_neg hq, List.sum_cons, hrec]
      ring

theorem sum_snd_filter_erase (u : Nat) :
    ∀ (l : List (Nat × Int)) (p0 : Nat × Int),
      (l.map Prod.fst).Nodup →
      l.find? (fun p => decide (p.1 = u)) = some p0 →
      ((l.filter (fun q => decide (q.1 ≠ u))).map Prod.snd).sum =
        (l.map Prod.snd).sum - p0.2 := by
  intro l
  induction l with
  | nil => intro p0 _ hf; cases hf
  | cons q rest ih =>
    intro p0 hnd hf
    by_cases hq : q.1 = u
    · rw [List.find?_cons_of_pos _ (by simpa using hq)] at hf
      injection hf with hqp
      subst hqp
      have hrest := keys_no_u_of_head hnd hq
      have hfil : rest.filter (fun q' => decide (q'.1 ≠ u)) = rest :=
        List.filter_eq_self.mpr (fun x hx => by simpa using hrest x hx)
      rw [List.filter_cons_of_neg (by simpa using hq)]
      rw [hfil]
      simp only [List.map_cons, List.sum_cons]
      ring
    · rw [List.find?_cons_of_neg _ (by simpa using hq)] at hf
      have hnd' : (rest.map Prod.fst).Nodup :=
        (List.nodup_cons.mp (by simpa using hnd)).2
      have hrec := ih p0 hnd' hf
      rw [List.filter_cons_of_pos (by simpa using hq)]
      simp only [List.map_cons, List.sum_cons, hrec]
      ring

theorem like_consistent_step (st : LikeState) (op : LikeOp)
    (h : LikeConsistent st) : LikeConsistent (apply_like_op st op) := by
  obtain ⟨hnd, hval, hsum⟩ := h
  cases op with
  | like u v =>
    show LikeConsistent (like_content st u v)
    unfold like_content
    by_cases hv : v = 1 ∨ v = -1
    · rw [if_pos hv]
      cases hfind : st.likes.find? (fun p => decide (p.1 = u)) with
      | some p0 =>
        refine ⟨?_, ?_, ?_⟩
        · have hkeys : (st.likes.map (fun q => if q.1 = u then (q.1, v) else q)).map
              Prod.fst = st.likes.map Prod.fst := by
            rw [List.map_map]
            exact List.map_congr_left (fun x _ => by
              by_cases hx : x.1 = u <;> simp [hx])
          simpa [hkeys] using hnd
        · intro p hp
          obtain ⟨q, hq, hfq⟩ := List.mem_map.mp hp
          by_cases hqu : q.1 = u
          · rw [if_pos hqu] at hfq
            rw [← hfq]
            exact hv
          · rw [if_neg hqu] at hfq
            exact hfq ▸ hval q hq
        · show st.like_count + (v - p0.2) = _
          rw [sum_snd_map_update u v st.likes p0 hnd hfind, ← hsum]
      | none =>
        have hnone : ∀ x ∈ st.likes, x.1 ≠ u := by
          intro x hx
          have := List.find?_eq_none.mp hfind x hx
          simpa using this
        refine ⟨?_, ?_, ?_⟩
        · rw [List.map_append]
          rw [List.nodup_append]
          refine ⟨hnd, by simp, ?_⟩
          intro a ha
          simp only [List.map_cons, List.map_nil, List.mem_cons,
            List.not_mem_nil, or_false]
          obtain ⟨x, hx, hax⟩ := List.mem_map.mp ha
          intro hau
          exact hnone x hx (by rw [hax]; exact hau)
        · intro p hp
          rcases List.mem_append.mp hp with hp | hp
          · exact hval p hp
          · simp only [List.mem_singleton] at hp
            rw [hp]
            exact hv
        · show st.like_count + v = _
          rw [List.map_append, List.sum_append, ← hsum]
          simp
    · rw [if_neg hv]
      exact ⟨hnd, hval, hsum⟩
  | unlike u =>
    show LikeConsistent (unlike_content st u)
    unfold unlike_content
    cases hfind : st.likes.find? (fun p => decide (p.1 = u)) with
    | some p0 =>
      refine ⟨?_, ?_, ?_⟩
      · exact List.Nodup.sublist ((List.filter_sublist _).map Prod.fst) hnd
      · intro p hp
        exact hval p (List.mem_of_mem_filter hp)
      · show st.like_count - p0.2 = _
        rw [sum_snd_filter_erase u st.likes p0 hnd hfind, ← hsum]
    | none =>
      exact ⟨hnd, hval, hsum⟩

/-- C5: from any consistent state, any sequence of like / like-update /
unlike operations keeps at most one like row per user, all values in
{+1, −1}, and the denormalized like_count equal to the sum of the like
row values. -/
theorem like_counter_invariant (st : LikeState) (ops : List LikeOp)
    (h : LikeConsistent st) : LikeConsistent (run_like_ops st ops) := by
  induction ops generalizing st with
  | nil => exact h
  | cons op ops ih => exact ih _ (like_consistent_step st op h)

/-- Witness for `like_counter_invariant`: two users like, one retracts. -/
theorem like_counter_invariant_witness :
    LikeConsistent (run_like_ops ⟨[], 0⟩
      [.like 3 1, .like 4 (-1), .unlike 3]) :=
  like_counter_invariant ⟨[], 0⟩ [.like 3 1, .like 4 (-1), .unlike 3]
    ⟨by simp, by simp, by simp⟩

/-- C6 counterexample: the three calls like(+1), unlike, like(−1) executed
in the order like(+1); like(−1); unlike leave the counter at 0, not −1 —
the round-trip result does depend on the order. -/
theorem like_toggle_order_counterexample :
    (run_like_ops ⟨[], 0⟩ [.like 7 1, .like 7 (-1), .unlike 7]).like_count
      = 0 ∧
    (run_like_ops ⟨[], 0⟩ [.like 7 1, .like 7 (-1), .unlike 7]).like_count
      ≠ -1 := by
  constructor
  · rfl
  · intro h
    cases h

/-- C6 (amended): executed in the stated order — like(+1), then unlike,
then like(−1) — the three calls leave the counter at exactly −1 for any
single user acting on content that starts with counter 0 and no like row
from that user. -/
theorem like_toggle_stated_order (u : Nat) :
    (run_like_ops ⟨[], 0⟩ [.like u 1, .unlike u, .like u (-1)]).like_count
      = -1 := by
  show (like_content (unlike_content (like_content ⟨[], 0⟩ u 1) u) u
    (-1)).like_count = -1
  rw [show like_content ⟨[], 0⟩ u 1 = ⟨[(u, 1)], 1⟩ from rfl]
  rw [show unlike_content ⟨[(u, 1)], 1⟩ u = ⟨[], 0⟩ by
    unfold unlike_content
    rw [List.find?_cons_of_pos _ (by simp)]
    simp]
  rfl

/-! ## Comment tree lemmas -/

theorem mem_tree_children {l : List CommentRec} {pid : Nat} {c : CommentRec} :
    c ∈ tree_children l pid ↔
      c ∈ l ∧ attaches l c = true ∧ c.parent_id = some pid := by
  unfold tree_children
  simp [List.mem_filter, and_assoc]

theorem mem_tree_roots {l : List CommentRec} {c : CommentRec} :
    c ∈ tree_roots l ↔ c ∈ l ∧ attaches l c = false := by
  unfold tree_roots
  simp [List.mem_filter]

theorem attaches_iff {l : List CommentRec} {c : CommentRec} :
    attaches l c = true ↔
      ∃ p, c.parent_id = some p ∧ p ≠ 0 ∧ ∃ d ∈ l, d.id = p := by
  unfold attaches
  cases hp : c.parent_id with
  | none => simp
  | some p => simp [List.any_eq_true]

/-- A relation with a strictly decreasing measure has no cycles. -/
theorem no_transGen_of_measure {α : Type} {r : α → α → Prop} (f : α → Nat)
    (h : ∀ x y, r x y → f y < f x) : ∀ x, ¬ Relation.TransGen r x x := by
  have hall : ∀ a b, Relation.TransGen r a b → f b < f a := by
    intro a b hab
    induction hab with
    | single h1 => exact h _ _ h1
    | tail _ h2 ih => exact lt_trans (h _ _ h2) ih
  intro x hx
  exact lt_irrefl _ (hall x x hx)

theorem sum_map_ite_eq_count (k : Nat) :
    ∀ (l : List CommentRec),
      (l.map (fun p => if p.id = k then (1 : Nat) else 0)).sum =
        (l.map CommentRec.id).count k := by
  intro l
  induction l with
  | nil => rfl
  | cons p rest ih =>
    simp only [List.map_cons, List.sum_cons, List.count_cons, ih]
    by_cases h : p.id = k
    · subst h
      simp [Nat.add_comm]
    · simp [h, Ne.symm h]

/-- C7: for a post's comment list (distinct nonzero ids, acyclic parent
references, creation-ascending order), the builder places every comment
exactly once — as a root iff its parent_id is NULL or names an absent id,
otherwise in the children list of exactly its parent — produces no cycle
(no comment is its own ancestor), and keeps the roots in creation-time
ascending order. -/
theorem comment_tree_spec (l : List CommentRec)
    (h_ids : (l.map CommentRec.id).Nodup)
    (h_pos : ∀ c ∈ l, c.id ≠ 0)
    (h_acyc : ∀ c, ¬ Relation.TransGen (ParentRef l) c c)
    (h_sorted : l.Pairwise (fun a b => a.created_at ≤ b.created_at)) :
    (∀ c ∈ l,
      (tree_roots l).count c +
        (l.map (fun p => (tree_children l p.id).count c)).sum = 1) ∧
    (∀ c ∈ l, (c ∈ tree_roots l ↔
      (c.parent_id = none ∨
        ∃ p, c.parent_id = some p ∧ p ∉ l.map CommentRec.id))) ∧
    (∀ c pid, c ∈ tree_children l pid → c.parent_id = some pid) ∧
    (∀ c, ¬ Relation.TransGen (TreeEdge l) c c) ∧
    (tree_roots l).Pairwise (fun a b => a.created_at ≤ b.created_at) := by
  have nd : l.Nodup := List.Nodup.of_map CommentRec.id h_ids
  refine ⟨?_, ?_, ?_, ?_, ?_⟩
  · intro c hc
    by_cases hA : attaches l c = true
    · obtain ⟨pc, hpc, hpc0, d, hd, hdid⟩ := attaches_iff.mp hA
      have hroots : (tree_roots l).count c = 0 := by
        apply List.count_eq_zero.mpr
        intro hmem
        rw [(mem_tree_roots.mp hmem).2] at hA
        cases hA
      have hterm : ∀ p : CommentRec, (tree_children l p.id).count c =
          if p.id = pc then 1 else 0 := by
        intro p
        by_cases hpp : p.id = pc
        · rw [if_pos hpp]
          have hpredc : (fun x =>
              attaches l x && decide (x.parent_id = some p.id)) c = true := by
            simp [hA, hpc, hpp]
          rw [tree_children,
            @List.count_filter CommentRec _ _
              (fun x => attaches l x && decide (x.parent_id = some p.id)) c l
              hpredc]
          exact List.count_eq_one_of_mem nd hc
        · rw [if_neg hpp]
          apply List.count_eq_zero.mpr
          intro hmem
          have := (mem_tree_children.mp hmem).2.2
          rw [hpc] at this
          exact hpp (Option.some.inj this).symm
      have hsum : (l.map (fun p => (tree_children l p.id).count c)).sum =
          (l.map (fun p => if p.id = pc then 1 else 0)).sum := by
        rw [List.map_congr_left (fun p _ => hterm p)]
      rw [hroots, hsum, sum_map_ite_eq_count]
      have hpcmem : pc ∈ l.map CommentRec.id := by
        rw [← hdid]
        exact List.mem_map_of_mem CommentRec.id hd
      simpa using List.count_eq_one_of_mem h_ids hpcmem
    · have hA' : attaches l c = false := by
        cases hattach : attaches l c
        · rfl
        · exact absurd hattach hA
      have hroots : (tree_roots l).count c = l.count c := by
        unfold tree_roots
        exact List.count_filter (by simp [hA'])
      have hterm : ∀ p ∈ l, (tree_children l p.id).count c = 0 := by
        intro p _
        apply List.count_eq_zero.mpr
        intro hmem
        rw [(mem_tree_children.mp hmem).2.1] at hA'
        cases hA'
      have hsum : (l.map (fun p => (tree_children l p.id).count c)).sum = 0 :=
        List.sum_eq_zero (by
          intro x hx
          obtain ⟨p, hp, hpx⟩ := List.mem_map.mp hx
          rw [← hpx]
          exact hterm p hp)
      rw [hroots, hsum, List.count_eq_one_of_mem nd hc]
  · intro c hc
    rw [mem_tree_roots]
    constructor
    · rintro ⟨-, hA⟩
      cases hp : c.parent_id with
      | none => exact Or.inl rfl
      | some p =>
        refine Or.inr ⟨p, rfl, ?_⟩
        intro hpmem
        have hp0 : p ≠ 0 := by
          obtain ⟨d, hd, hdid⟩ := List.mem_map.mp hpmem
          rw [← hdid]
          exact h_pos d hd
        obtain ⟨d, hd, hdid⟩ := List.mem_map.mp hpmem
        have : attaches l c = true := attaches_iff.mpr ⟨p, hp, hp0, d, hd, hdid⟩
        rw [this] at hA
        cases hA
    · intro h
      refine ⟨hc, ?_⟩
      cases hattach : attaches l c
      · rfl
      · obtain ⟨p, hp, -, d, hd, hdid⟩ := attaches_iff.mp hattach
        rcases h with h | ⟨p', hp', hpabs⟩
        · rw [h] at hp
          cases hp
        · rw [hp'] at hp
          have hpp' : p = p' := (Option.some.inj hp).symm
          exact absurd (hpp' ▸ (hdid ▸ List.mem_map_of_mem CommentRec.id hd))
            hpabs
  · intro c pid hmem
    exact (mem_tree_children.mp hmem).2.2
  · intro c
    have hmono : ∀ a b, TreeEdge l a b → ParentRef l a b := by
      intro a b hab
      obtain ⟨hb, hchild⟩ := hab
      obtain ⟨ha, -, hp⟩ := mem_tree_children.mp hchild
      exact ⟨ha, hb, hp⟩
    intro hcycle
    exact h_acyc c (Relation.TransGen.mono hmono hcycle)
  · exact List.Pairwise.sublist (List.filter_sublist l) h_sorted

/-- The spec's depth-3 scenario: root A, reply B, reply-to-reply C. -/
def commentA : CommentRec := ⟨1, none, 10⟩

def commentB : CommentRec := ⟨2, some 1, 20⟩

def commentC : CommentRec := ⟨3, some 2, 30⟩

def commentChain : List CommentRec := [commentA, commentB, commentC]

/-- Witness for `comment_tree_spec`: in the A ← B ← C chain, B is placed
exactly once and the root order is creation-ascending. -/
theorem comment_tree_spec_witness :
    ((tree_roots commentChain).count commentB +
      (commentChain.map
        (fun p => (tree_children commentChain p.id).count commentB)).sum = 1) ∧
    (tree_roots commentChain).Pairwise
      (fun a b => a.created_at ≤ b.created_at) := by
  have hacyc : ∀ c, ¬ Relation.TransGen (ParentRef commentChain) c c := by
    apply no_transGen_of_measure (fun c => c.created_at)
    intro x y hxy
    obtain ⟨hx, hy, hp⟩ := hxy
    simp only [commentChain, List.mem_cons, List.not_mem_nil, or_false] at hx hy
    rcases hx with rfl | rfl | rfl <;> rcases hy with rfl | rfl | rfl <;>
      simp_all [commentA, commentB, commentC]
  have h := comment_tree_spec commentChain (by decide) (by decide) hacyc
    (by decide)
  exact ⟨h.1 commentB (by decide), h.2.2.2.2⟩

/-! ## C8: created posts and the home recommendation engine -/

/-- Any successful create_post appends exactly one posts row, and that
row's `tags` column is NULL: the INSERT never names the `tags` column. -/
theorem create_post_ok {st : PostSt} {community_id user_id : Nat}
    {title content : String} {tag_ids : List Nat} {new_post_id now : Nat}
    {st2 : PostSt}
    (h : create_post st community_id user_id title content tag_ids
      new_post_id now = .ok st2) :
    st2.posts = st.posts ++
      [{ id := new_post_id, community_id := community_id, user_id := user_id,
         title := title, content := content, tags := none, like_count := 0,
         created_at := now }] := by
  unfold create_post at h
  split at h
  · cases h
  · split at h
    · cases h
    · simp only [Except.ok.injEq] at h
      rw [← h]

/-- A post whose `tags` column is NULL is never a recommendation
candidate: if every post in the store was produced by create_post (NULL
tags), the non-fallback branch is empty and get_home_recommendations
always returns the trending fallback. -/
theorem null_tags_never_recommended (st : PostSt) (user_id : Nat)
    (shuffle : List Post → List Post)
    (hshuffle : ∀ l, (shuffle l).Perm l)
    (hnull : ∀ p ∈ st.posts, p.tags = none) :
    recommended_candidates st user_id = [] ∧
    get_home_recommendations st user_id shuffle =
      ((st.posts.filter (fun p => decide (p.user_id ≠ user_id))).mergeSort
        posts_fallback_le).take 20 := by
  have hcand : recommended_candidates st user_id = [] := by
    unfold recommended_candidates
    rw [List.filter_eq_nil_iff]
    intro p hp
    rw [hnull p (List.mem_of_mem_filter hp)]
    simp
  refine ⟨hcand, ?_⟩
  unfold get_home_recommendations
  rw [if_neg]
  simp only [not_not]
  rw [List.isEmpty_iff, hcand]
  exact (hshuffle []).eq_nil

/-- State for the C8 failing input: community 5 (tagged "Gaming" in the
communities table) with users 2 (member) and 3 (owner); user 1 is
onboarded with Gaming/Music/Sports and belongs to no community. -/
def stP : PostSt :=
  ⟨[⟨5, 2, "member"⟩, ⟨5, 3, "owner"⟩], [], [], [],
    [(1, "Gaming"), (1, "Music"), (1, "Sports")]⟩

/-- The row create_post inserts for user 2's post in community 5. -/
def createdPost : Post := ⟨1, 5, 2, "hello", "body", none, 0, 0⟩

def stP2 : PostSt :=
  ⟨[⟨5, 2, "member"⟩, ⟨5, 3, "owner"⟩], [], [createdPost], [],
    [(1, "Gaming"), (1, "Music"), (1, "Sports")]⟩

/-- C8 failing input, evaluated: user 2's post is created through
create_post in Gaming-tagged community 5, user 1's topics include
"Gaming", yet the post's `tags` column is NULL, the non-fallback branch
of get_home_recommendations is empty, and user 1 receives the post only
through the trending fallback — contradicting the claim that
create_post-created posts are eligible for the intersecting branch. -/
theorem create_post_recommendation_divergence :
    create_post stP 5 2 "hello" "body" [] 1 0 = .ok stP2 ∧
    createdPost.tags = none ∧
    (1, "Gaming") ∈ stP2.user_topics ∧
    recommended_candidates stP2 1 = [] ∧
    get_home_recommendations stP2 1 id = [createdPost] := by
  refine ⟨rfl, rfl, by decide, rfl, ?_⟩
  have h := null_tags_never_recommended stP2 1 id (fun l => List.Perm.refl l)
    (by decide)
  rw [h.2]
  rw [show stP2.posts.filter (fun p => decide (p.user_id ≠ 1)) =
    [createdPost] from rfl]
  rw [List.mergeSort_singleton]
  rfl

end Afterfrag
